import Mathlib

/-!
Verification of the content-reconstruction pipeline of `flash-reader`
(`stitch_content.py`, with the boolean success reporting of `app.py`).

The pipeline is shallowly embedded over `List Char`.  Each regex pass of
`ContentStitcher.clean_text` is compiled by hand to a scanning function with
the exact leftmost-match / greedy / lazy semantics of the Python `re` calls
(the hand analysis of the deterministic backtracking of each pattern is noted
at each definition).  Character classes (`\s`, `\d`, `\w`, `[A-Z]`) are
modelled on their ASCII part, which is the alphabet the pipeline's data uses.
Scanning functions that advance by a computed amount take a fuel argument
(structural recursion on fuel) and are always called with fuel larger than
the input length; every recursive call consumes at least one input character.
-/

namespace FlashReader

/-- ASCII part of Python's `\s` class (also `str.strip`'s default set). -/
def pyIsSpace (c : Char) : Bool :=
  c == ' ' || c == '\t' || c == '\n' || c == '\r' || c == '\x0b' || c == '\x0c'

/-- Python's `\d` on ASCII: the decimal digits. -/
def pyIsDigit (c : Char) : Bool :=
  decide ('0' ≤ c) && decide (c ≤ '9')

/-- The regex class `[A-Z]` (exact, ASCII by definition). -/
def pyIsUpper (c : Char) : Bool :=
  decide ('A' ≤ c) && decide (c ≤ 'Z')

/-- ASCII part of Python's `\w` (word characters), used for `\b`. -/
def pyIsWord (c : Char) : Bool :=
  pyIsDigit c || pyIsUpper c || (decide ('a' ≤ c) && decide (c ≤ 'z')) || c == '_'

/-- Embeds Python `str.replace(pat, repl)` for a non-empty `pat`:
leftmost non-overlapping occurrences, scanning resumes after each
replacement. -/
def pyReplaceAux (pat repl : List Char) : Nat → List Char → List Char
  | 0, _ => []
  | _ + 1, [] => []
  | fuel + 1, c :: rest =>
    if pat.isPrefixOf (c :: rest) && !pat.isEmpty then
      repl ++ pyReplaceAux pat repl fuel ((c :: rest).drop pat.length)
    else
      c :: pyReplaceAux pat repl fuel rest

def pyReplace (pat repl l : List Char) : List Char :=
  pyReplaceAux pat repl (l.length + 1) l

/-- Index of the first position of `l` at which `pat` starts, if any. -/
def findSub (pat : List Char) : Nat → List Char → Option Nat
  | 0, _ => none
  | fuel + 1, l =>
    if pat.isPrefixOf l then some 0
    else
      match l with
      | [] => none
      | _ :: rest => (findSub pat fuel rest).map (· + 1)

def ticks : List Char := ("```").data

/-- Pass 1 of `clean_text`: `re.sub(r'<ticks>.*?<ticks>', '', text, flags=re.DOTALL)`
where `<ticks>` is a triple backtick.  Lazy inner: the match closes at the
first later occurrence of the triple backtick. -/
def subFenceAux : Nat → List Char → List Char
  | 0, _ => []
  | _ + 1, [] => []
  | fuel + 1, c :: rest =>
    if ticks.isPrefixOf (c :: rest) then
      match findSub ticks (((c :: rest).drop 3).length + 1) ((c :: rest).drop 3) with
      | some k => subFenceAux fuel ((((c :: rest).drop 3)).drop (k + 3))
      | none => c :: subFenceAux fuel rest
    else
      c :: subFenceAux fuel rest

def subFence (l : List Char) : List Char := subFenceAux (l.length + 1) l

def wordsKey : List Char := ("\"words\":").data

/-- Pass 2: `re.sub(r'"words":\s*\[.*?\]', '', text, flags=re.DOTALL)`.
`\s*` then `[` is deterministic (whitespace and `[` are disjoint); the lazy
`.*?` closes at the first `]`. -/
def subWordsAux : Nat → List Char → List Char
  | 0, _ => []
  | _ + 1, [] => []
  | fuel + 1, c :: rest =>
    if wordsKey.isPrefixOf (c :: rest) then
      let t := ((c :: rest).drop 8).dropWhile pyIsSpace
      match t with
      | '[' :: t2 =>
        match findSub (("]").data) (t2.length + 1) t2 with
        | some k => subWordsAux fuel (t2.drop (k + 1))
        | none => c :: subWordsAux fuel rest
      | _ => c :: subWordsAux fuel rest
    else
      c :: subWordsAux fuel rest

def subWords (l : List Char) : List Char := subWordsAux (l.length + 1) l

def pageKey : List Char := ("\"page\":").data

/-- Pass 3: `re.sub(r'"page":\s*\d+,?\s*', '', text)`.  All quantifiers are
deterministic here (whitespace, digits, `,` pairwise disjoint; the trailing
`,?\s*` is at the end of the pattern, hence maximal). -/
def subPageAux : Nat → List Char → List Char
  | 0, _ => []
  | _ + 1, [] => []
  | fuel + 1, c :: rest =>
    if pageKey.isPrefixOf (c :: rest) then
      let t := ((c :: rest).drop 7).dropWhile pyIsSpace
      let d := t.takeWhile pyIsDigit
      if d.isEmpty then
        c :: subPageAux fuel rest
      else
        let t2 := t.dropWhile pyIsDigit
        let t3 := match t2 with
          | ',' :: r => r
          | _ => t2
        subPageAux fuel (t3.dropWhile pyIsSpace)
    else
      c :: subPageAux fuel rest

def subPage (l : List Char) : List Char := subPageAux (l.length + 1) l

def chapterKey : List Char := ("\"chapter\":").data

/-- Pass 4: `re.sub(r'"chapter":\s*"[^"]*",?\s*', '', text)`.  `[^"]*` is a
maximal run of non-quote characters followed by the mandatory closing quote;
deterministic. -/
def subChapterAux : Nat → List Char → List Char
  | 0, _ => []
  | _ + 1, [] => []
  | fuel + 1, c :: rest =>
    if chapterKey.isPrefixOf (c :: rest) then
      let t := ((c :: rest).drop 10).dropWhile pyIsSpace
      match t with
      | '"' :: t2 =>
        let inner := t2.dropWhile (fun x => x != '"')
        match inner with
        | '"' :: t3 =>
          let t4 := match t3 with
            | ',' :: r => r
            | _ => t3
          subChapterAux fuel (t4.dropWhile pyIsSpace)
        | _ => c :: subChapterAux fuel rest
      | _ => c :: subChapterAux fuel rest
    else
      c :: subChapterAux fuel rest

def subChapter (l : List Char) : List Char := subChapterAux (l.length + 1) l

def contentKey : List Char := ("\"content\":").data

/-- Pass 5: `re.sub(r'"content":\s*"', '', text)`. -/
def subContentKeyAux : Nat → List Char → List Char
  | 0, _ => []
  | _ + 1, [] => []
  | fuel + 1, c :: rest =>
    if contentKey.isPrefixOf (c :: rest) then
      let t := ((c :: rest).drop 10).dropWhile pyIsSpace
      match t with
      | '"' :: t2 => subContentKeyAux fuel t2
      | _ => c :: subContentKeyAux fuel rest
    else
      c :: subContentKeyAux fuel rest

def subContentKey (l : List Char) : List Char := subContentKeyAux (l.length + 1) l

/-- Pass 9: `re.sub(r'\s+', ' ', text)`: each maximal whitespace run becomes
one space. -/
def subWsAux : Nat → List Char → List Char
  | 0, _ => []
  | _ + 1, [] => []
  | fuel + 1, c :: rest =>
    if pyIsSpace c then
      ' ' :: subWsAux fuel (rest.dropWhile pyIsSpace)
    else
      c :: subWsAux fuel rest

def subWs (l : List Char) : List Char := subWsAux (l.length + 1) l

/-- Does `\d+\s*$` match here (given `\b` holds)?  The hand analysis of the
backtracking shows the match, when it exists, always reaches the end of the
string (the `$`-before-final-newline case is subsumed because `\n` is in
`\s`): maximal digits then maximal whitespace must exhaust the input. -/
def trailTail (l : List Char) : Bool :=
  match l with
  | [] => false
  | c :: _ => pyIsDigit c && ((l.dropWhile pyIsDigit).dropWhile pyIsSpace).isEmpty

/-- The word boundary `\b` before a digit: start of string or a non-word
character before the scan position. -/
def boundaryOk (prev : Option Char) : Bool :=
  match prev with
  | none => true
  | some p => !pyIsWord p

/-- Pass 10: `re.sub(r'\b\d+\s*$', '', text)`.  `prev` is the character
before the scan position (for the word boundary `\b`). -/
def subTrailNumAux (prev : Option Char) : List Char → List Char
  | [] => []
  | c :: rest =>
    if boundaryOk prev && trailTail (c :: rest) then []
    else c :: subTrailNumAux (some c) rest

def subTrailNum (l : List Char) : List Char := subTrailNumAux none l

def figureWord : List Char := ("Figure").data

/-- Pass 11: `re.sub(r'Figure\s+\d+[:.]\s*.*?(?=\n|$)', '', text)`.
`\s+`, `\d+`, `[:.]` are deterministic; `\s*` is maximal (the lazy tail
always succeeds); the lazy `.*?` stops just before the next newline or at
the end of the string. -/
def subFigureAux : Nat → List Char → List Char
  | 0, _ => []
  | _ + 1, [] => []
  | fuel + 1, c :: rest =>
    if figureWord.isPrefixOf (c :: rest) then
      if (((c :: rest).drop 6).takeWhile pyIsSpace).isEmpty
          || (((((c :: rest).drop 6).dropWhile pyIsSpace).takeWhile pyIsDigit)).isEmpty then
        c :: subFigureAux fuel rest
      else
        match ((((c :: rest).drop 6).dropWhile pyIsSpace)).dropWhile pyIsDigit with
        | ':' :: t4 =>
          subFigureAux fuel ((t4.dropWhile pyIsSpace).dropWhile (fun x => x != '\n'))
        | '.' :: t4 =>
          subFigureAux fuel ((t4.dropWhile pyIsSpace).dropWhile (fun x => x != '\n'))
        | _ => c :: subFigureAux fuel rest
    else
      c :: subFigureAux fuel rest

def subFigure (l : List Char) : List Char := subFigureAux (l.length + 1) l

def listOfFigures : List Char := ("List of Figures").data

/-- Pass 12: `re.sub(r'List of Figures.*?(?=\n|$)', '', text, flags=re.MULTILINE)`:
delete from the literal key up to (excluding) the next newline or the end. -/
def subListFigAux : Nat → List Char → List Char
  | 0, _ => []
  | _ + 1, [] => []
  | fuel + 1, c :: rest =>
    if listOfFigures.isPrefixOf (c :: rest) then
      subListFigAux fuel (((c :: rest).drop 15).dropWhile (fun x => x != '\n'))
    else
      c :: subListFigAux fuel rest

def subListFig (l : List Char) : List Char := subListFigAux (l.length + 1) l

/-- The class `[A-Z\s\d]` of pass 13's capture group. -/
def dupClass (c : Char) : Bool :=
  pyIsUpper c || pyIsSpace c || pyIsDigit c

/-- Try `f` on `n, n-1, ..., 1` and return the first success (the greedy
backtracking order of a `+` quantifier). -/
def firstDesc (f : Nat → Option α) : Nat → Option α
  | 0 => none
  | n + 1 =>
    match f (n + 1) with
    | some a => some a
    | none => firstDesc f n

/-- The capture group of pass 13 with run extent `g`:
`\n\n` + the uppercase letter + the first `g` characters of the maximal
`[A-Z\s\d]` run. -/
def dupGroup (u : Char) (body : List Char) (g : Nat) : List Char :=
  '\n' :: '\n' :: u :: (body.takeWhile dupClass).take g

/-- The backtracking search of pass 13 at one candidate start: the engine
prefers the longest capture-group run `g`, and for each `g` the longest
`\s+` run `k`; the first combination whose remainder starts with the group
again wins.  Returns the group and the remainder after the full match. -/
def dupAttempt (u : Char) (body : List Char) : Option (List Char × List Char) :=
  firstDesc (fun g =>
    firstDesc (fun k =>
      if (dupGroup u body g).isPrefixOf ((body.drop g).drop k) then
        some (dupGroup u body g, (body.drop g).drop (k + (dupGroup u body g).length))
      else
        none) ((body.drop g).takeWhile pyIsSpace).length)
    (body.takeWhile dupClass).length

/-- Pass 13: `re.sub(r'(\n\n[A-Z][A-Z\s\d]+)\s+\1', r'\1', text)`,
replacing each match by its capture group. -/
def subDupHeadAux : Nat → List Char → List Char
  | 0, _ => []
  | _ + 1, [] => []
  | fuel + 1, c :: rest =>
    match c :: rest with
    | '\n' :: '\n' :: u :: body =>
      if pyIsUpper u then
        match dupAttempt u body with
        | some (grp, rem) => grp ++ subDupHeadAux fuel rem
        | none => c :: subDupHeadAux fuel rest
      else
        c :: subDupHeadAux fuel rest
    | _ => c :: subDupHeadAux fuel rest

def subDupHead (l : List Char) : List Char := subDupHeadAux (l.length + 1) l

/-- Python `str.strip()` (ASCII whitespace). -/
def pyStrip (l : List Char) : List Char :=
  ((l.dropWhile pyIsSpace).reverse.dropWhile pyIsSpace).reverse

/-- The full `ContentStitcher.clean_text`, pass for pass. -/
def cleanList (l : List Char) : List Char :=
  let a1 := subFence l
  let a2 := subWords a1
  let a3 := subPage a2
  let a4 := subChapter a3
  let a5 := subContentKey a4
  let a6 := pyReplace (("\",").data) [] a5
  let a7 := pyReplace (("\"\x7d").data) [] a6
  let a8 := pyReplace (("\x7b").data) [] a7
  let a9 := pyReplace (("\x7d").data) [] a8
  let b1 := pyReplace (("\\n").data) ((" ").data) a9
  let b2 := pyReplace (("\\r").data) ((" ").data) b1
  let b3 := pyReplace (("\\t").data) ((" ").data) b2
  let b4 := pyReplace (("\\").data) [] b3
  let c1 := subWs b4
  let c2 := subTrailNum c1
  let c3 := subFigure c2
  let c4 := subListFig c3
  let c5 := subDupHead c4
  pyStrip c5

def clean_text (s : String) : String :=
  String.mk (cleanList s.data)

/-! ## `json.loads` (strict decoding of the inner payload)

A faithful recursive-descent parser for the JSON grammar accepted by
Python's `json.loads`: the six value kinds plus the `NaN` / `Infinity` /
`-Infinity` constants, strict strings (unescaped control characters
rejected), and arbitrary numbers.  Numeric values are never inspected by
the pipeline (a non-string `content` makes `clean_text` raise, which the
caller turns into the empty string), so `Json.num` carries no payload;
`\uXXXX` escapes become the code point directly (surrogate pairs are not
recombined — no claim depends on them). -/

inductive Json where
  | null : Json
  | bool : Bool → Json
  | num : Json
  | str : List Char → Json
  | arr : List Json → Json
  | obj : List (List Char × Json) → Json

/-- JSON inter-token whitespace (exactly the four characters `json` skips). -/
def jsonWs (c : Char) : Bool :=
  c == ' ' || c == '\t' || c == '\n' || c == '\r'

def skipWs (l : List Char) : List Char := l.dropWhile jsonWs

def hexVal (c : Char) : Option Nat :=
  if pyIsDigit c then some (c.toNat - 48)
  else if decide ('a' ≤ c) && decide (c ≤ 'f') then some (c.toNat - 87)
  else if decide ('A' ≤ c) && decide (c ≤ 'F') then some (c.toNat - 55)
  else none

def escMap (c : Char) : Option Char :=
  if c = '"' then some '"'
  else if c = '\\' then some '\\'
  else if c = '/' then some '/'
  else if c = 'b' then some '\x08'
  else if c = 'f' then some '\x0c'
  else if c = 'n' then some '\n'
  else if c = 'r' then some '\r'
  else if c = 't' then some '\t'
  else none

/-- Parse the body of a JSON string (after the opening quote); returns the
decoded characters and the remainder after the closing quote. -/
def parseJString : List Char → Option (List Char × List Char)
  | [] => none
  | '"' :: rest => some ([], rest)
  | '\\' :: rest =>
    match rest with
    | [] => none
    | 'u' :: h1 :: h2 :: h3 :: h4 :: rest3 =>
      match hexVal h1, hexVal h2, hexVal h3, hexVal h4 with
      | some a, some b, some c, some d =>
        (parseJString rest3).map
          (fun p => (Char.ofNat (((a * 16 + b) * 16 + c) * 16 + d) :: p.1, p.2))
      | _, _, _, _ => none
    | 'u' :: _ => none
    | e :: rest2 =>
      match escMap e with
      | some ch => (parseJString rest2).map (fun p => (ch :: p.1, p.2))
      | none => none
  | c :: rest =>
    if c.toNat < 32 then none
    else (parseJString rest).map (fun p => (c :: p.1, p.2))

/-- Parse a JSON number (grammar check only); returns the remainder. -/
def parseNumberTail (l : List Char) : Option (List Char) :=
  let intPart : Option (List Char) :=
    match l with
    | '0' :: r => some r
    | c :: r =>
      if decide ('1' ≤ c) && decide (c ≤ '9') then some (r.dropWhile pyIsDigit)
      else none
    | [] => none
  match intPart with
  | none => none
  | some r1 =>
    let r2 : Option (List Char) :=
      match r1 with
      | '.' :: s =>
        let d := s.takeWhile pyIsDigit
        if d.isEmpty then none else some (s.dropWhile pyIsDigit)
      | _ => some r1
    match r2 with
    | none => none
    | some r3 =>
      match r3 with
      | 'e' :: s => parseExpTail s
      | 'E' :: s => parseExpTail s
      | _ => some r3
where
  parseExpTail (s : List Char) : Option (List Char) :=
    let s2 := match s with
      | '+' :: u => u
      | '-' :: u => u
      | _ => s
    let d := s2.takeWhile pyIsDigit
    if d.isEmpty then none else some (s2.dropWhile pyIsDigit)

mutual

/-- One JSON value; consumes leading characters of `l`, no leading skip. -/
def parseJson : Nat → List Char → Option (Json × List Char)
  | 0, _ => none
  | fuel + 1, l =>
    match l with
    | [] => none
    | c :: rest =>
      if (("null").data).isPrefixOf l then some (Json.null, l.drop 4)
      else if (("true").data).isPrefixOf l then some (Json.bool true, l.drop 4)
      else if (("false").data).isPrefixOf l then some (Json.bool false, l.drop 5)
      else if (("NaN").data).isPrefixOf l then some (Json.num, l.drop 3)
      else if (("Infinity").data).isPrefixOf l then some (Json.num, l.drop 8)
      else if (("-Infinity").data).isPrefixOf l then some (Json.num, l.drop 9)
      else if c = '"' then
        (parseJString rest).map (fun p => (Json.str p.1, p.2))
      else if c = '{' then
        let t := skipWs rest
        match t with
        | '}' :: r => some (Json.obj [], r)
        | _ => (parseMembers fuel t).map (fun p => (Json.obj p.1, p.2))
      else if c = '[' then
        let t := skipWs rest
        match t with
        | ']' :: r => some (Json.arr [], r)
        | _ => (parseElems fuel t).map (fun p => (Json.arr p.1, p.2))
      else if c = '-' || pyIsDigit c then
        (parseNumberTail (if c = '-' then rest else l)).map (fun r => (Json.num, r))
      else none

/-- Nonempty member list of an object, starting at the first key. -/
def parseMembers : Nat → List Char → Option (List (List Char × Json) × List Char)
  | 0, _ => none
  | fuel + 1, l =>
    match l with
    | '"' :: rest =>
      match parseJString rest with
      | none => none
      | some (key, r1) =>
        match skipWs r1 with
        | ':' :: r2 =>
          match parseJson fuel (skipWs r2) with
          | none => none
          | some (v, r3) =>
            match skipWs r3 with
            | ',' :: r4 =>
              (parseMembers fuel (skipWs r4)).map (fun p => ((key, v) :: p.1, p.2))
            | '}' :: r4 => some ([(key, v)], r4)
            | _ => none
        | _ => none
    | _ => none

/-- Nonempty element list of an array, starting at the first value. -/
def parseElems : Nat → List Char → Option (List Json × List Char)
  | 0, _ => none
  | fuel + 1, l =>
    match parseJson fuel l with
    | none => none
    | some (v, r1) =>
      match skipWs r1 with
      | ',' :: r2 => (parseElems fuel (skipWs r2)).map (fun p => (v :: p.1, p.2))
      | ']' :: r2 => some ([v], r2)
      | _ => none

end

/-- Embeds `json.loads`: a single JSON value with optional surrounding
whitespace, nothing else. -/
def jsonLoads (l : List Char) : Option Json :=
  let t := skipWs l
  match parseJson (t.length + 1) t with
  | some (j, rest) => if (skipWs rest).isEmpty then some j else none
  | none => none

/-- Python dict construction keeps the last binding of a repeated key;
embeds `json_content.get(k)`. -/
def lookupLast (kvs : List (List Char × Json)) (k : List Char) : Option Json :=
  match kvs with
  | [] => none
  | (k2, v) :: rest =>
    match lookupLast rest k with
    | some v2 => some v2
    | none => if k2 = k then some v else none

/-! ## The envelope model and `extract_content_from_response`

An envelope (one stored chat-completion response) is modelled with its
optional fields: a missing `choices` key selects the Python default
`[{}]`, a missing `message` or `content` key yields the empty string, and
`choices == []` makes `[0]` raise `IndexError`, which the function's
`except` turns into the empty string. -/

structure Msg where
  content : Option String
deriving DecidableEq

structure Choice where
  message : Option Msg
deriving DecidableEq

structure Response where
  choices : Option (List Choice)
deriving DecidableEq

/-- Embeds `response.get("choices", [{}])[0].get("message", {}).get("content", "")`;
`none` is the `IndexError` path. -/
def messageContent (r : Response) : Option String :=
  match r.choices with
  | none => some ("")
  | some [] => none
  | some (c :: _) =>
    some (match c.message with
          | none => ("")
          | some m => m.content.getD (""))

/-- Does `"\s*,` match at `l`? (first alternative of the fallback regex's
terminator). -/
def termA (l : List Char) : Bool :=
  match l with
  | '"' :: r =>
    match r.dropWhile pyIsSpace with
    | ',' :: _ => true
    | _ => false
  | _ => false

/-- Does `\s*"\s*}` match at `l`? (second alternative). -/
def termB (l : List Char) : Bool :=
  match l.dropWhile pyIsSpace with
  | '"' :: r =>
    match r.dropWhile pyIsSpace with
    | '}' :: _ => true
    | _ => false
  | _ => false

/-- The lazy group `(.*?)` of the fallback regex: the shortest extension
(DOTALL, so any characters) after which one of the two terminators
matches.  `acc` holds the group read so far, reversed. -/
def lazyContent : Nat → List Char → List Char → Option (List Char)
  | 0, _, _ => none
  | fuel + 1, acc, l =>
    if termA l || termB l then some acc.reverse
    else
      match l with
      | [] => none
      | c :: rest => lazyContent fuel (c :: acc) rest

/-- Embeds `re.search(r'"content":\s*"(.*?)(?:"\s*,|\s*"\s*})', s, re.DOTALL)`,
returning the captured group: the scan tries every start position from the
left; at a start, `"content":` then maximal whitespace then `"` are forced,
and the group is closed lazily. -/
def searchContentAux : Nat → List Char → Option (List Char)
  | 0, _ => none
  | fuel + 1, l =>
    let here : Option (List Char) :=
      if contentKey.isPrefixOf l then
        match (l.drop 10).dropWhile pyIsSpace with
        | '"' :: rest => lazyContent (rest.length + 1) [] rest
        | _ => none
      else none
    match here with
    | some g => some g
    | none =>
      match l with
      | [] => none
      | _ :: rest => searchContentAux fuel rest

def searchContent (l : List Char) : Option (List Char) :=
  searchContentAux (l.length + 1) l

/-- Embeds `message_content.replace("<ticks>json", "").replace("<ticks>", "")`
(`<ticks>` = triple backtick): the markdown fence stripping applied before
strict decoding. -/
def stripFences (l : List Char) : List Char :=
  pyReplace ticks [] (pyReplace (ticks ++ (("json").data)) [] l)

/-- Embeds `ContentStitcher.extract_content_from_response`, line for line.  The
outer `try/except` makes every failure path return the empty string; note
that the strict-decode branch applies `clean_text` to the `content` field,
that a non-string `content` raises inside `clean_text` (caught, empty
string), and that the regex fallback scans the original, un-stripped
payload. -/
def extract_content_from_response (r : Response) : String :=
  match messageContent r with
  | none => ("")
  | some mc =>
    if mc = ("") then ("")
    else
      match jsonLoads (stripFences mc.data) with
      | some (Json.obj kvs) =>
        match lookupLast kvs (("content").data) with
        | some (Json.str c) => clean_text (String.mk c)
        | some _ => ("")
        | none => clean_text ("")
      | some _ => ("")
      | none =>
        match searchContent mc.data with
        | some g => clean_text (String.mk g)
        | none => clean_text ("")

/-! ## The chapter-heading test

`re.match(r'^(?:CHAPTER\s+\d+:?\s*)?[A-Z][A-Z\s\d-]+$', content)` from
`process_json_file`.  Inside the optional prefix every quantifier is
deterministic (adjacent classes are disjoint, and the body must start with
an uppercase letter, so shorter backtracked runs always fail); the only
real alternative is taking or skipping the whole optional group.  Python's
`$` also matches just before a final newline, handled by `matchDollar`. -/

def bodyClass (c : Char) : Bool :=
  pyIsUpper c || pyIsSpace c || pyIsDigit c || c == '-'

/-- Matches `[A-Z][A-Z\s\d-]+$` against the whole of `l`. -/
def matchBodyEnd (l : List Char) : Bool :=
  match l with
  | c :: d :: rest => pyIsUpper c && bodyClass d && rest.all bodyClass
  | _ => false

def chapterWord : List Char := ("CHAPTER").data

/-- The optional `:?` after the digits: consume a colon when present. -/
def colonSkip (t : List Char) : List Char :=
  match t with
  | ':' :: r => r
  | _ => t

/-- Matches `\s+\d+:?\s*` then `[A-Z][A-Z\s\d-]+$` against the whole of `t` (what
follows the literal `CHAPTER`): at least one whitespace, at least one
digit, optional colon, whitespace, body. -/
def matchChapterTail (t : List Char) : Bool :=
  if (t.takeWhile pyIsSpace).isEmpty
      || ((t.dropWhile pyIsSpace).takeWhile pyIsDigit).isEmpty then
    false
  else
    matchBodyEnd
      ((colonSkip ((t.dropWhile pyIsSpace).dropWhile pyIsDigit)).dropWhile pyIsSpace)

/-- Matches `CHAPTER\s+\d+:?\s*` then `[A-Z][A-Z\s\d-]+$` against the whole of `l`. -/
def matchChapterEnd (l : List Char) : Bool :=
  if chapterWord.isPrefixOf l then matchChapterTail (l.drop 7) else false

def matchHeadingCore (l : List Char) : Bool :=
  matchChapterEnd l || matchBodyEnd l

/-- Python's `$` (no MULTILINE): end of string, or just before a final
newline. -/
def matchDollar (core : List Char → Bool) (l : List Char) : Bool :=
  core l || (if l.getLast? = some '\n' then core l.dropLast else false)

/-- The heading classifier of `process_json_file` line 96 (truthiness of the
`re.match`). -/
def is_heading (s : String) : Bool :=
  matchDollar matchHeadingCore s.data

/-! ## Sentence deduplication (lines 107-114) -/

/-- Python `str.split(sep)` for non-empty `sep`: split at leftmost
non-overlapping occurrences, keeping empty pieces. -/
def splitOnAux (sep : List Char) : Nat → List Char → List Char → List (List Char)
  | 0, acc, l => [acc.reverse ++ l]
  | fuel + 1, acc, l =>
    if sep.isPrefixOf l && !sep.isEmpty then
      acc.reverse :: splitOnAux sep fuel [] (l.drop sep.length)
    else
      match l with
      | [] => [acc.reverse]
      | c :: rest => splitOnAux sep fuel (c :: acc) rest

def splitOnList (sep l : List Char) : List (List Char) :=
  splitOnAux sep (l.length + 1) [] l

def sepDot : List Char := (". ").data

/-- The `for sentence in sentences` loop: keep a sentence when it is
non-empty (`if sentence`) and not already kept (`not in unique_sentences`). -/
def uniqueSentencesAux (acc : List (List Char)) : List (List Char) → List (List Char)
  | [] => acc
  | s :: rest =>
    if !s.isEmpty && !acc.contains s then
      uniqueSentencesAux (acc ++ [s]) rest
    else
      uniqueSentencesAux acc rest

/-- Lines 109-114 of `process_json_file`: split at `". "`, drop empty and
previously seen segments, rejoin with `". "`. -/
def dedupeList (l : List Char) : List Char :=
  List.intercalate sepDot (uniqueSentencesAux [] (splitOnList sepDot l))

def dedupe (s : String) : String :=
  String.mk (dedupeList s.data)

/-! ## Page assembly (`process_json_file`) -/

structure PageData where
  page_number : Int
  deepseek_output : List Response

/-- Embeds `data.sort(key=lambda x: x["page_number"])`: Python's sort is stable and
ascending; `List.insertionSort` with `≤` on the key has exactly that
behavior (equal keys keep input order). -/
def sortPages (pages : List PageData) : List PageData :=
  List.insertionSort (fun a b => a.page_number ≤ b.page_number) pages

def nl2 : List Char := ("\n\n").data

/-- Lines 93-103: one chunk of one page.  State: the single-slot
`current_chapter` (`none` is Python's `None`), the document-level
`all_content`, and the page-local `page_content`. -/
def stepChunk (st : Option (List Char) × List (List Char) × List (List Char))
    (r : Response) : Option (List Char) × List (List Char) × List (List Char) :=
  let (cur, allc, pagec) := st
  let content := (extract_content_from_response r).data
  if content.isEmpty then (cur, allc, pagec)
  else if matchDollar matchHeadingCore content then
    if some content = cur then (cur, allc, pagec)
    else (some content, allc ++ [nl2 ++ content ++ nl2], pagec)
  else (cur, allc, pagec ++ [content])

/-- Lines 87-116: one page — run the chunks, then join the page body with
single spaces, deduplicate, and append it as one entry of `all_content`. -/
def processPage (st : Option (List Char) × List (List Char)) (p : PageData) :
    Option (List Char) × List (List Char) :=
  let (cur2, allc2, pagec) := p.deepseek_output.foldl stepChunk (st.1, st.2, [])
  if pagec.isEmpty then (cur2, allc2)
  else (cur2, allc2 ++ [dedupeList (List.intercalate ((" ").data) pagec)])

/-- Line 120: `re.sub(r'\n{3,}', '\n\n', full_text)`. -/
def collapseNlAux : Nat → List Char → List Char
  | 0, _ => []
  | _ + 1, [] => []
  | fuel + 1, c :: rest =>
    if c = '\n' then
      let run := 1 + (rest.takeWhile (fun x => x == '\n')).length
      if 3 ≤ run then
        '\n' :: '\n' :: collapseNlAux fuel (rest.dropWhile (fun x => x == '\n'))
      else
        c :: collapseNlAux fuel rest
    else
      c :: collapseNlAux fuel rest

def collapseNl (l : List Char) : List Char := collapseNlAux (l.length + 1) l

def sentencePunct (c : Char) : Bool :=
  c == '.' || c == '!' || c == '?'

/-- Line 121: `re.sub(r'(?<=[.!?])\s+(?=[A-Z])', '\n\n', full_text)`.
`prev` is the original character before the scan position (for the
lookbehind); the `\s+` run is maximal (a shorter run would put a whitespace
character under the `[A-Z]` lookahead). -/
def paraBreaksAux : Nat → Option Char → List Char → List Char
  | 0, _, _ => []
  | _ + 1, _, [] => []
  | fuel + 1, prev, c :: rest =>
    let punct := match prev with
      | some p => sentencePunct p
      | none => false
    if punct && pyIsSpace c then
      let run := (c :: rest).takeWhile pyIsSpace
      let after := (c :: rest).dropWhile pyIsSpace
      match after with
      | a :: _ =>
        if pyIsUpper a then
          '\n' :: '\n' :: paraBreaksAux fuel (some (run.getLastD c)) after
        else
          c :: paraBreaksAux fuel (some c) rest
      | [] => c :: paraBreaksAux fuel (some c) rest
    else
      c :: paraBreaksAux fuel (some c) rest

def paraBreaks (l : List Char) : List Char := paraBreaksAux (l.length + 1) none l

/-- Embeds `ContentStitcher.process_json_file` after the file has been loaded
(lines 81-123): sort, accumulate, join with blank lines, collapse newline
runs, insert paragraph breaks, strip. -/
def process_json_file (pages : List PageData) : String :=
  let sorted := sortPages pages
  let res := sorted.foldl processPage (none, [])
  String.mk (pyStrip (paraBreaks (collapseNl (List.intercalate nl2 res.2))))

/-! ## `stitch_content` and the caller's boolean (error handling)

File I/O is modelled by its observable result: `none` stands for a source
artifact that is missing, unreadable, not JSON, or not of the expected
shape — every such failure is caught inside `process_json_file`, which then
returns the empty string (lines 77-79 and 125-127).  `stitch_content`
writes the output artifact only when the content is non-empty (lines
146-155); the caller `app.process_pdf` (app.py) derives its boolean result
from the existence of that artifact. -/

def process_json_file_run (src : Option (List PageData)) : String :=
  match src with
  | none => ("")
  | some pages => process_json_file pages

/-- The output artifact written by `stitch_content` for one source file
(`none`: no file is created). -/
def stitch_content (src : Option (List PageData)) : Option String :=
  let content := process_json_file_run src
  if content = ("") then none else some content

/-- Embeds `app.process_pdf`'s success boolean for a fresh run: the output artifact
exists after stitching. -/
def process_pdf_success (src : Option (List PageData)) : Bool :=
  (stitch_content src).isSome

/-! ## Declarative characterizations and spec-side definitions -/

/-- The language of `[A-Z][A-Z\s\d-]+$`: an uppercase letter followed by at
least one more character of the class. -/
def BodyLang (l : List Char) : Prop :=
  ∃ c rest, l = c :: rest ∧ pyIsUpper c = true ∧ rest ≠ [] ∧
    ∀ x ∈ rest, bodyClass x = true

/-- The language of `\s+\d+:?\s*` (what follows the literal `CHAPTER`
inside the optional prefix), concatenated with a body. -/
def ChapterTail (t : List Char) : Prop :=
  ∃ w d c2 w2 b, t = w ++ d ++ c2 ++ w2 ++ b ∧
    w ≠ [] ∧ (∀ x ∈ w, pyIsSpace x = true) ∧
    d ≠ [] ∧ (∀ x ∈ d, pyIsDigit x = true) ∧
    (c2 = [] ∨ c2 = [':']) ∧
    (∀ x ∈ w2, pyIsSpace x = true) ∧
    BodyLang b

/-- The language of `^(?:CHAPTER\s+\d+:?\s*)?[A-Z][A-Z\s\d-]+$` without the
`$`-before-final-newline rule. -/
def HeadingCoreLang (l : List Char) : Prop :=
  BodyLang l ∨ ∃ t, l = chapterWord ++ t ∧ ChapterTail t

/-- The full language of the heading regex under `re.match` (Python's `$`
also accepts one final newline). -/
def HeadingLang (l : List Char) : Prop :=
  HeadingCoreLang l ∨ ∃ t, l = t ++ [('\n')] ∧ HeadingCoreLang t

/-- Modelled from the spec (4.4): keep segments in first-seen order,
dropping exactly the segments equal to a previously seen one (empty
segments are kept like any other). -/
def specDedupeKeep (acc : List (List Char)) : List (List Char) → List (List Char)
  | [] => acc
  | s :: rest =>
    if acc.contains s then specDedupeKeep acc rest
    else specDedupeKeep (acc ++ [s]) rest

/-- The spec's deduplicator, for comparison with the code's `dedupe`. -/
def specDedupe (s : String) : String :=
  String.mk (List.intercalate sepDot (specDedupeKeep [] (splitOnList sepDot s.data)))

/-- The amended description: first-seen order, dropping empty segments as
well as repeated ones. -/
def dropEmptyFirstSeen (acc : List (List Char)) : List (List Char) → List (List Char)
  | [] => acc
  | s :: rest =>
    if s.isEmpty || acc.contains s then dropEmptyFirstSeen acc rest
    else dropEmptyFirstSeen (acc ++ [s]) rest

/-- The amended deduplication contract. -/
def dedupeAmendedSpec (s : String) : String :=
  String.mk (List.intercalate sepDot (dropEmptyFirstSeen [] (splitOnList sepDot s.data)))

/-- An envelope carrying a given inner payload string. -/
def mkEnvelope (s : String) : Response :=
  ⟨some [⟨some ⟨some s⟩⟩]⟩

/-- An envelope whose payload is well-formed JSON with the given `content`
field (as produced by `app.process_pdf`). -/
def bodyEnvelope (s : String) : Response :=
  mkEnvelope (("\x7b\"content\": \"") ++ s ++ ("\"\x7d"))

/-- Three-page example document, pages stored in the order 3, 1, 2. -/
def ex312 : List PageData :=
  [⟨3, [bodyEnvelope ("Third page text.")]⟩,
   ⟨1, [bodyEnvelope ("First page text.")]⟩,
   ⟨2, [bodyEnvelope ("Second page text.")]⟩]

/-- The same three pages stored in ascending order. -/
def ex123 : List PageData :=
  [⟨1, [bodyEnvelope ("First page text.")]⟩,
   ⟨2, [bodyEnvelope ("Second page text.")]⟩,
   ⟨3, [bodyEnvelope ("Third page text.")]⟩]

def chapterOneChunk : Response := bodyEnvelope ("CHAPTER 1: INTRODUCTION")

def chapterTwoChunk : Response := bodyEnvelope ("CHAPTER 2: METHODS")

instance : IsTotal PageData (fun a b => a.page_number ≤ b.page_number) :=
  ⟨fun a b => Int.le_total a.page_number b.page_number⟩

instance : IsTrans PageData (fun a b => a.page_number ≤ b.page_number) :=
  ⟨fun _ _ _ h1 h2 => le_trans h1 h2⟩

/-! # Helper lemmas -/

lemma mem_of_drop {x : Char} {l : List Char} {n : Nat} (h : x ∈ l.drop n) : x ∈ l :=
  (List.drop_sublist n l).subset h

lemma mem_of_take {x : Char} {l : List Char} {n : Nat} (h : x ∈ l.take n) : x ∈ l :=
  (List.take_sublist n l).subset h

lemma mem_of_dropWhile {x : Char} {p : Char → Bool} {l : List Char}
    (h : x ∈ l.dropWhile p) : x ∈ l :=
  (List.dropWhile_sublist p).subset h

lemma mem_of_takeWhile {x : Char} {p : Char → Bool} {l : List Char}
    (h : x ∈ l.takeWhile p) : x ∈ l :=
  (List.takeWhile_sublist p).subset h

lemma ne_of_pred {f : Char → Bool} {c d : Char} (h : f c = true) (hd : f d = false) :
    c ≠ d := by
  intro he
  rw [he, hd] at h
  cases h

/-- Computes `takeWhile`/`dropWhile` of an append whose first part satisfies `p` and
whose second part starts with a failing element (or is empty). -/
lemma takeWhile_append_of_head {p : Char → Bool} :
    ∀ (w rest : List Char), (∀ x ∈ w, p x = true) →
      (∀ a, rest.head? = some a → p a = false) →
      (w ++ rest).takeWhile p = w ∧ (w ++ rest).dropWhile p = rest
  | [], rest, _, hr => by
    cases rest with
    | nil => exact ⟨rfl, rfl⟩
    | cons a t =>
      have := hr a rfl
      constructor
      · simp [List.takeWhile_cons, this]
      · simp [List.dropWhile_cons, this]
  | c :: w, rest, hw, hr => by
    have hc : p c = true := hw c (by simp)
    have ih := takeWhile_append_of_head w rest (fun x hx => hw x (by simp [hx])) hr
    constructor
    · simp [List.takeWhile_cons, hc, ih.1]
    · simp [List.dropWhile_cons, hc, ih.2]

lemma pyIsSpace_cases {c : Char} (h : pyIsSpace c = true) :
    c = ' ' ∨ c = '\t' ∨ c = '\n' ∨ c = '\r' ∨ c = '\x0b' ∨ c = '\x0c' := by
  have h2 := h
  simp only [pyIsSpace, Bool.or_eq_true, beq_iff_eq] at h2
  tauto

lemma space_not_digit {c : Char} (h : pyIsSpace c = true) : pyIsDigit c = false := by
  rcases pyIsSpace_cases h with rfl | rfl | rfl | rfl | rfl | rfl <;> decide

lemma space_not_upper {c : Char} (h : pyIsSpace c = true) : pyIsUpper c = false := by
  rcases pyIsSpace_cases h with rfl | rfl | rfl | rfl | rfl | rfl <;> decide

lemma digit_not_space {c : Char} (h : pyIsDigit c = true) : pyIsSpace c = false := by
  cases hs : pyIsSpace c
  · rfl
  · rw [space_not_digit hs] at h
    cases h

lemma upper_not_space {c : Char} (h : pyIsUpper c = true) : pyIsSpace c = false := by
  cases hs : pyIsSpace c
  · rfl
  · rw [space_not_upper hs] at h
    cases h

lemma upper_not_digit {c : Char} (h : pyIsUpper c = true) : pyIsDigit c = false := by
  simp only [pyIsUpper, Bool.and_eq_true, decide_eq_true_eq] at h
  simp only [pyIsDigit, Bool.and_eq_false_iff, decide_eq_false_iff_not]
  by_cases hc : c ≤ '9'
  · exact Or.inl (fun h0 => absurd (le_trans h.1 hc) (by decide))
  · exact Or.inr hc

lemma digit_not_upper {c : Char} (h : pyIsDigit c = true) : pyIsUpper c = false := by
  cases hs : pyIsUpper c
  · rfl
  · rw [upper_not_digit hs] at h
    cases h

/-! # Claim theorems -/

/-- C3: applying `clean_text` to the exact input `"content": "The cat
sat.\n\nIt slept."` (literal backslash-n sequences) does NOT yield
`The cat sat. It slept.` — the code's pass for stray quotes only strips
`",` and `"}`, so the final lone quote of the input survives. -/
theorem C3_counterexample :
    clean_text ("\"content\": \"The cat sat.\\n\\nIt slept.\"") ≠
      ("The cat sat. It slept.") ∧
    clean_text ("\"content\": \"The cat sat.\\n\\nIt slept.\"") =
      ("The cat sat. It slept.\"") := by
  exact ⟨by decide, rfl⟩

/-- C3 (amended): cleaning that input yields `The cat sat. It slept."` —
the literal backslash-n sequences become spaces, the whitespace collapses,
and the `"content": "` prefix is stripped, but the trailing double quote
(not followed by a comma or brace) remains. -/
theorem C3_amended :
    clean_text ("\"content\": \"The cat sat.\\n\\nIt slept.\"") =
      ("The cat sat. It slept.\"") := rfl

/-- C8: when the source JSON artifact is missing or unreadable (`none` in
the model: every read/parse failure is caught and turned into the empty
string by `process_json_file`), no output artifact is written and the
caller's boolean (`app.process_pdf`, derived from the artifact's
existence) reports failure. -/
theorem C8_missing_source :
    process_json_file_run none = ("") ∧
    stitch_content none = none ∧
    process_pdf_success none = false := by
  exact ⟨rfl, rfl, rfl⟩

lemma stepChunk_empty {cur : Option (List Char)} {allc pagec : List (List Char)}
    {r : Response} (h : extract_content_from_response r = ("")) :
    stepChunk (cur, allc, pagec) r = (cur, allc, pagec) := by
  simp [stepChunk, h]

lemma heading_ne_nil {l : List Char} (h : matchDollar matchHeadingCore l = true) :
    l ≠ [] := by
  intro he
  subst he
  exact absurd h (by decide)

lemma stepChunk_suppress {cur : Option (List Char)} {allc pagec : List (List Char)}
    {r : Response}
    (hh : matchDollar matchHeadingCore (extract_content_from_response r).data = true)
    (he : some (extract_content_from_response r).data = cur) :
    stepChunk (cur, allc, pagec) r = (cur, allc, pagec) := by
  have h0 : (extract_content_from_response r).data.isEmpty = false := by
    cases hd : (extract_content_from_response r).data with
    | nil => rw [hd] at hh; exact absurd hh (by decide)
    | cons a t => rfl
  simp [stepChunk, h0, hh, he]

lemma stepChunk_emit {cur : Option (List Char)} {allc pagec : List (List Char)}
    {r : Response}
    (hh : matchDollar matchHeadingCore (extract_content_from_response r).data = true)
    (hne : some (extract_content_from_response r).data ≠ cur) :
    stepChunk (cur, allc, pagec) r =
      (some (extract_content_from_response r).data,
       allc ++ [nl2 ++ (extract_content_from_response r).data ++ nl2], pagec) := by
  have h0 : (extract_content_from_response r).data.isEmpty = false := by
    cases hd : (extract_content_from_response r).data with
    | nil => rw [hd] at hh; exact absurd hh (by decide)
    | cons a t => rfl
  simp [stepChunk, h0, hh, hne]

lemma foldl_stepChunk_const {rs : List Response} :
    ∀ {cur : Option (List Char)} {allc pagec : List (List Char)},
      (∀ r ∈ rs, extract_content_from_response r = ("")) →
      rs.foldl stepChunk (cur, allc, pagec) = (cur, allc, pagec) := by
  induction rs with
  | nil => intro _ _ _ _; rfl
  | cons r rest ih =>
    intro cur allc pagec h
    rw [List.foldl_cons, stepChunk_empty (h r (List.mem_cons_self r rest))]
    exact ih (fun x hx => h x (List.mem_cons_of_mem r hx))

/-- C9: a document with an empty page array assembles to the empty string
(so nothing is written, and no error is raised — the embedding is total);
and a page none of whose envelopes yields content leaves the assembly state
untouched: it contributes no paragraph and does not fail the run. -/
theorem C9_empty_inputs :
    process_json_file [] = ("") ∧
    stitch_content (some []) = none ∧
    (∀ (st : Option (List Char) × List (List Char)) (p : PageData),
      (∀ r ∈ p.deepseek_output, extract_content_from_response r = ("")) →
      processPage st p = st) := by
  refine ⟨rfl, rfl, ?_⟩
  intro st p h
  obtain ⟨cur, allc⟩ := st
  simp only [processPage]
  rw [foldl_stepChunk_const h]
  rfl

/-- C9 witness: a concrete page holding one unparseable envelope contributes
nothing. -/
theorem C9_witness :
    processPage (none, []) ⟨1, [mkEnvelope ("garbage")]⟩ = (none, []) := by
  refine C9_empty_inputs.2.2 (none, []) ⟨1, [mkEnvelope ("garbage")]⟩ ?_
  intro r hr
  rw [List.mem_singleton] at hr
  subst hr
  rfl

/-- C5: heading suppression compares only against the most-recently-seen
heading.  Concretely, `CHAPTER 1: INTRODUCTION` twice in a row yields one
heading paragraph, and the same heading re-appearing after a different one
is emitted again; in general the per-chunk step skips a heading equal to
the single-slot state and otherwise emits it and overwrites the slot. -/
theorem C5_heading_suppression :
    process_json_file [⟨1, [chapterOneChunk, chapterOneChunk]⟩] =
      ("CHAPTER 1: INTRODUCTION") ∧
    process_json_file
        [⟨1, [chapterOneChunk, chapterOneChunk, chapterTwoChunk, chapterOneChunk]⟩] =
      ("CHAPTER 1: INTRODUCTION\n\nCHAPTER 2: METHODS\n\nCHAPTER 1: INTRODUCTION") ∧
    (∀ (cur : Option (List Char)) (allc pagec : List (List Char)) (r : Response),
      matchDollar matchHeadingCore (extract_content_from_response r).data = true →
      (some (extract_content_from_response r).data = cur →
        stepChunk (cur, allc, pagec) r = (cur, allc, pagec)) ∧
      (some (extract_content_from_response r).data ≠ cur →
        stepChunk (cur, allc, pagec) r =
          (some (extract_content_from_response r).data,
           allc ++ [nl2 ++ (extract_content_from_response r).data ++ nl2], pagec))) :=
  ⟨rfl, rfl, fun _ _ _ _ hh =>
    ⟨fun he => stepChunk_suppress hh he, fun hne => stepChunk_emit hh hne⟩⟩

/-- C5 witness: the general per-chunk clauses at a concrete heading chunk. -/
theorem C5_witness :
    stepChunk (some (("CHAPTER 1: INTRODUCTION").data), [], []) chapterOneChunk =
      (some (("CHAPTER 1: INTRODUCTION").data), [], []) ∧
    stepChunk (none, [], []) chapterOneChunk =
      (some (("CHAPTER 1: INTRODUCTION").data),
       [nl2 ++ (("CHAPTER 1: INTRODUCTION").data) ++ nl2], []) := by
  constructor
  · exact (C5_heading_suppression.2.2 _ [] [] chapterOneChunk (by decide)).1 rfl
  · exact (C5_heading_suppression.2.2 none [] [] chapterOneChunk (by decide)).2
      (by simp)

/-- C10: the single-slot chapter state is threaded through the page fold
(never reset between pages): a heading emitted on page 1 suppresses the
identical heading on page 2, and a suppressed duplicate is discarded
entirely — the page body list is unchanged. -/
theorem C10_chapter_state_across_pages :
    process_json_file
        [⟨1, [chapterOneChunk, bodyEnvelope ("First page text.")]⟩,
         ⟨2, [chapterOneChunk, bodyEnvelope ("Second page text.")]⟩] =
      ("CHAPTER 1: INTRODUCTION\n\nFirst page text.\n\nSecond page text.") ∧
    (∀ (cur : Option (List Char)) (allc pagec : List (List Char)) (r : Response),
      matchDollar matchHeadingCore (extract_content_from_response r).data = true →
      some (extract_content_from_response r).data = cur →
      stepChunk (cur, allc, pagec) r = (cur, allc, pagec)) ∧
    (∀ (st : Option (List Char) × List (List Char)) (p : PageData)
        (ps : List PageData),
      (p :: ps).foldl processPage st = ps.foldl processPage (processPage st p)) :=
  ⟨rfl, fun _ _ _ _ hh he => stepChunk_suppress hh he, fun _ _ _ => List.foldl_cons _ _⟩

/-- C10 witness: a duplicate heading chunk arriving with a non-trivial page
body leaves state, accumulated paragraphs and page body untouched. -/
theorem C10_witness :
    stepChunk (some (("CHAPTER 1: INTRODUCTION").data), [nl2], [(("x").data)])
        chapterOneChunk =
      (some (("CHAPTER 1: INTRODUCTION").data), [nl2], [(("x").data)]) :=
  C10_chapter_state_across_pages.2.1 _ _ _ chapterOneChunk (by decide) rfl

lemma orderedInsert_filter_ne {x : PageData} {k : Int} (hx : ¬ x.page_number = k) :
    ∀ l : List PageData,
      (List.orderedInsert (fun a b => a.page_number ≤ b.page_number) x l).filter
          (fun p => p.page_number == k) =
        l.filter (fun p => p.page_number == k)
  | [] => by simp [List.filter_cons, beq_iff_eq, hx]
  | b :: t => by
    simp only [List.orderedInsert]
    split
    · simp [List.filter_cons, beq_iff_eq, hx]
    · simp [List.filter_cons, orderedInsert_filter_ne hx t]

lemma orderedInsert_filter_eq {x : PageData} {k : Int} (hx : x.page_number = k) :
    ∀ l : List PageData,
      (List.orderedInsert (fun a b => a.page_number ≤ b.page_number) x l).filter
          (fun p => p.page_number == k) =
        x :: l.filter (fun p => p.page_number == k)
  | [] => by simp [List.filter_cons, beq_iff_eq, hx]
  | b :: t => by
    simp only [List.orderedInsert]
    split
    · simp [List.filter_cons, beq_iff_eq, hx]
    · rename_i hle
      have hb : ¬ b.page_number = k := by
        intro hbk
        exact hle (le_of_eq (by rw [hx, hbk]))
      simp [List.filter_cons, beq_iff_eq, hb, orderedInsert_filter_eq hx t]

lemma sortPages_filter (pages : List PageData) (k : Int) :
    (sortPages pages).filter (fun p => p.page_number == k) =
      pages.filter (fun p => p.page_number == k) := by
  induction pages with
  | nil => rfl
  | cons p t ih =>
    simp only [sortPages, List.insertionSort] at ih ⊢
    by_cases hp : p.page_number = k
    · rw [orderedInsert_filter_eq hp, ih, List.filter_cons, if_pos (by simp [beq_iff_eq, hp])]
    · rw [orderedInsert_filter_ne hp, ih, List.filter_cons, if_neg (by simp [beq_iff_eq, hp])]

lemma sortPages_sorted (pages : List PageData) :
    (sortPages pages).Pairwise (fun a b => a.page_number ≤ b.page_number) :=
  List.sorted_insertionSort _ pages

lemma sortPages_idem (pages : List PageData) :
    sortPages (sortPages pages) = sortPages pages :=
  List.Sorted.insertionSort_eq (List.sorted_insertionSort _ pages)

lemma process_json_file_sorted (pages : List PageData) :
    process_json_file (sortPages pages) = process_json_file pages := by
  simp only [process_json_file, sortPages_idem]

/-- C2: the assembler sorts pages ascending by `page_number` with Python's
stable sort semantics — the sorted list is pairwise ascending, records of
any fixed page number keep their input relative order, the output only
depends on the stably sorted list, and a document stored in order 3, 1, 2
yields its paragraphs in the order of pages 1, 2, 3 (equal to the output on
the ascending input). -/
theorem C2_page_ordering :
    (∀ pages : List PageData,
      (sortPages pages).Pairwise (fun a b => a.page_number ≤ b.page_number)) ∧
    (∀ (pages : List PageData) (k : Int),
      (sortPages pages).filter (fun p => p.page_number == k) =
        pages.filter (fun p => p.page_number == k)) ∧
    (∀ pages : List PageData,
      process_json_file (sortPages pages) = process_json_file pages) ∧
    process_json_file ex312 =
      ("First page text.\n\nSecond page text.\n\nThird page text.") ∧
    process_json_file ex312 = process_json_file ex123 :=
  ⟨sortPages_sorted, sortPages_filter, process_json_file_sorted, rfl, rfl⟩

lemma uniqueSentences_eq_dropEmpty :
    ∀ (acc l : List (List Char)), uniqueSentencesAux acc l = dropEmptyFirstSeen acc l
  | _, [] => rfl
  | acc, s :: rest => by
    simp only [uniqueSentencesAux, dropEmptyFirstSeen]
    cases h1 : s.isEmpty <;> cases h2 : acc.contains s <;>
      simp [h1, h2, uniqueSentences_eq_dropEmpty]

/-- C4 counterexample: the code's deduplicator also drops *empty* segments
(`if sentence`), which the claimed description does not: on `"A. "` the
split yields an empty final segment, never seen before, which the claim's
first-seen rule would keep. -/
theorem C4_counterexample :
    dedupe ("A. ") = ("A") ∧ specDedupe ("A. ") = ("A. ") ∧
    dedupe ("A. ") ≠ specDedupe ("A. ") :=
  ⟨rfl, rfl, by decide⟩

/-- C4 (amended): within one page the deduplicator splits at `". "`, keeps
non-empty segments in first-seen order, drops empty segments and segments
equal to a previously seen one, and rejoins with `". "`; the concrete
duplicated-sentence page behaves as claimed, and deduplication is
page-local — the same sentence on two different pages is kept on both. -/
theorem C4_deduplication :
    (∀ s : String, dedupe s = dedupeAmendedSpec s) ∧
    dedupe ("Hello world. Hello world. Done.") = ("Hello world. Done.") ∧
    process_json_file
        [⟨1, [bodyEnvelope ("Same text here.")]⟩,
         ⟨2, [bodyEnvelope ("Same text here.")]⟩] =
      ("Same text here.\n\nSame text here.") :=
  ⟨fun s => by
      simp [dedupe, dedupeList, dedupeAmendedSpec, uniqueSentences_eq_dropEmpty],
    rfl, rfl⟩

lemma extract_mkEnvelope (s : String) :
    extract_content_from_response (mkEnvelope s) =
      (if s = ("") then ("")
       else
        match jsonLoads (stripFences s.data) with
        | some (Json.obj kvs) =>
          match lookupLast kvs (("content").data) with
          | some (Json.str c) => clean_text (String.mk c)
          | some _ => ("")
          | none => clean_text ("")
        | some _ => ("")
        | none =>
          match searchContent s.data with
          | some g => clean_text (String.mk g)
          | none => clean_text ("")) := rfl

lemma jsonLoads_stripFences_empty :
    jsonLoads (stripFences (("") : String).data) = none := rfl

/-- C1 counterexample: the strict-decode branch does not return the
`content` field itself — it returns `clean_text` of it.  The payload below
strictly decodes with content field `a  b` (two spaces), yet the function
returns `a b`. -/
theorem C1_counterexample :
    jsonLoads (stripFences (("\x7b\"content\": \"a  b\"\x7d")).data) =
      some (Json.obj [((("content").data), Json.str (("a  b").data))]) ∧
    extract_content_from_response (mkEnvelope ("\x7b\"content\": \"a  b\"\x7d")) =
      ("a b") ∧
    ("a b") ≠ ("a  b") :=
  ⟨rfl, rfl, by decide⟩

/-- C1 (amended): `extract_content_from_response` is total (the embedding
of the `try/except` returns a string on every envelope): when the payload
strictly decodes (after fence stripping) to an object whose `content` field
is a string, the *cleaned* field is returned; a missing field yields the
empty string; on strict-decode failure, the structural scan for
`"content":` followed by a quoted value returns the recovered value,
cleaned, the value ending at the first quote-comma or quote-brace
terminator; otherwise the empty string.  A truncated payload still
containing `"content": "partial text here` (no closing quote) yields the
empty string without any exception. -/
theorem C1_extract_contract :
    (∀ (s : String) (kvs : List (List Char × Json)) (c : List Char),
      jsonLoads (stripFences s.data) = some (Json.obj kvs) →
      lookupLast kvs (("content").data) = some (Json.str c) →
      extract_content_from_response (mkEnvelope s) = clean_text (String.mk c)) ∧
    (∀ (s : String) (kvs : List (List Char × Json)),
      jsonLoads (stripFences s.data) = some (Json.obj kvs) →
      lookupLast kvs (("content").data) = none →
      extract_content_from_response (mkEnvelope s) = ("")) ∧
    (∀ (s : String) (g : List Char),
      jsonLoads (stripFences s.data) = none → searchContent s.data = some g →
      extract_content_from_response (mkEnvelope s) = clean_text (String.mk g)) ∧
    (∀ s : String,
      jsonLoads (stripFences s.data) = none → searchContent s.data = none →
      extract_content_from_response (mkEnvelope s) = ("")) ∧
    extract_content_from_response (mkEnvelope ("\x7b\"content\": \"partial text here")) =
      ("") := by
  refine ⟨?_, ?_, ?_, ?_, rfl⟩
  · intro s kvs c hj hc
    have hs : ¬ s = ("") := by
      intro he
      rw [he, jsonLoads_stripFences_empty] at hj
      cases hj
    rw [extract_mkEnvelope, if_neg hs, hj]
    show (match lookupLast kvs (("content").data) with
          | some (Json.str c) => clean_text (String.mk c)
          | some _ => ("")
          | none => clean_text ("")) = clean_text (String.mk c)
    rw [hc]
  · intro s kvs hj hc
    have hs : ¬ s = ("") := by
      intro he
      rw [he, jsonLoads_stripFences_empty] at hj
      cases hj
    rw [extract_mkEnvelope, if_neg hs, hj]
    show (match lookupLast kvs (("content").data) with
          | some (Json.str c) => clean_text (String.mk c)
          | some _ => ("")
          | none => clean_text ("")) = ("")
    rw [hc]
    rfl
  · intro s g hj hg
    by_cases hs : s = ("")
    · rw [hs, show searchContent (("") : String).data = none from rfl] at hg
      cases hg
    · rw [extract_mkEnvelope, if_neg hs, hj]
      show (match searchContent s.data with
            | some g => clean_text (String.mk g)
            | none => clean_text ("")) = clean_text (String.mk g)
      rw [hg]
  · intro s hj hg
    by_cases hs : s = ("")
    · rw [extract_mkEnvelope, if_pos hs]
    · rw [extract_mkEnvelope, if_neg hs, hj]
      show (match searchContent s.data with
            | some g => clean_text (String.mk g)
            | none => clean_text ("")) = ("")
      rw [hg]
      rfl

/-- C1 witness: the strict-decode clause and the fallback clause at
concrete payloads. -/
theorem C1_witness :
    extract_content_from_response (mkEnvelope ("\x7b\"content\": \"Hi there.\"\x7d")) =
      clean_text (String.mk (("Hi there.").data)) ∧
    extract_content_from_response
        (mkEnvelope ("not json \"content\": \"recovered stuff\", x")) =
      clean_text (String.mk (("recovered stuff").data)) :=
  ⟨C1_extract_contract.1 _ _ _ rfl rfl, C1_extract_contract.2.2.1 _ _ rfl rfl⟩

lemma mem_pyReplaceAux {x : Char} {pat repl : List Char} :
    ∀ {fuel : Nat} {l : List Char},
      x ∈ pyReplaceAux pat repl fuel l → x ∈ repl ∨ x ∈ l := by
  intro fuel
  induction fuel with
  | zero => intro l h; cases h
  | succ n ih =>
    intro l h
    cases l with
    | nil => cases h
    | cons c rest =>
      rw [pyReplaceAux] at h
      split at h
      · rcases List.mem_append.mp h with h1 | h1
        · exact Or.inl h1
        · rcases ih h1 with h2 | h2
          · exact Or.inl h2
          · exact Or.inr (mem_of_drop h2)
      · rcases List.mem_cons.mp h with h1 | h1
        · exact Or.inr (List.mem_cons.mpr (Or.inl h1))
        · rcases ih h1 with h2 | h2
          · exact Or.inl h2
          · exact Or.inr (List.mem_cons.mpr (Or.inr h2))

lemma mem_pyReplace {x : Char} {pat repl l : List Char}
    (h : x ∈ pyReplace pat repl l) : x ∈ repl ∨ x ∈ l :=
  mem_pyReplaceAux h

lemma pyReplaceAux_single_not_mem (c : Char) :
    ∀ {fuel : Nat} {l : List Char}, c ∉ pyReplaceAux [c] [] fuel l := by
  intro fuel
  induction fuel with
  | zero => intro l h; cases h
  | succ n ih =>
    intro l h
    cases l with
    | nil => cases h
    | cons a rest =>
      rw [pyReplaceAux] at h
      split at h
      · exact ih (by simpa using h)
      · rename_i hcond
        rcases List.mem_cons.mp h with h1 | h1
        · subst h1
          exact hcond (by simp [List.isPrefixOf])
        · exact ih h1

lemma pyReplace_single_not_mem (c : Char) (l : List Char) :
    c ∉ pyReplace [c] [] l :=
  pyReplaceAux_single_not_mem c

lemma mem_subWsAux {x : Char} :
    ∀ {fuel : Nat} {l : List Char}, x ∈ subWsAux fuel l → x ∈ l ∨ x = ' ' := by
  intro fuel
  induction fuel with
  | zero => intro l h; cases h
  | succ n ih =>
    intro l h
    cases l with
    | nil => cases h
    | cons c rest =>
      rw [subWsAux] at h
      split at h
      · rcases List.mem_cons.mp h with h1 | h1
        · exact Or.inr h1
        · rcases ih h1 with h2 | h2
          · exact Or.inl (List.mem_cons.mpr (Or.inr (mem_of_dropWhile h2)))
          · exact Or.inr h2
      · rcases List.mem_cons.mp h with h1 | h1
        · exact Or.inl (List.mem_cons.mpr (Or.inl h1))
        · rcases ih h1 with h2 | h2
          · exact Or.inl (List.mem_cons.mpr (Or.inr h2))
          · exact Or.inr h2

lemma mem_subWs {x : Char} {l : List Char} (h : x ∈ subWs l) : x ∈ l ∨ x = ' ' :=
  mem_subWsAux h

lemma mem_subTrailNumAux {x : Char} :
    ∀ {l : List Char} {prev : Option Char}, x ∈ subTrailNumAux prev l → x ∈ l := by
  intro l
  induction l with
  | nil => intro prev h; cases h
  | cons c rest ih =>
    intro prev h
    rw [subTrailNumAux] at h
    split at h
    · cases h
    · rcases List.mem_cons.mp h with h1 | h1
      · exact List.mem_cons.mpr (Or.inl h1)
      · exact List.mem_cons.mpr (Or.inr (ih h1))

lemma mem_subTrailNum {x : Char} {l : List Char} (h : x ∈ subTrailNum l) : x ∈ l :=
  mem_subTrailNumAux h

lemma mem_subFigureAux {x : Char} :
    ∀ {fuel : Nat} {l : List Char}, x ∈ subFigureAux fuel l → x ∈ l := by
  intro fuel
  induction fuel with
  | zero => intro l h; cases h
  | succ n ih =>
    intro l h
    cases l with
    | nil => cases h
    | cons c rest =>
      rw [subFigureAux] at h
      split at h
      · split at h
        · rcases List.mem_cons.mp h with h1 | h1
          · exact List.mem_cons.mpr (Or.inl h1)
          · exact List.mem_cons.mpr (Or.inr (ih h1))
        · split at h
          · rename_i t4 heq
            have h2 := ih h
            have h3 : x ∈ t4 := mem_of_dropWhile (mem_of_dropWhile h2)
            have h4 : x ∈ (((c :: rest).drop 6).dropWhile pyIsSpace).dropWhile pyIsDigit := by
              rw [heq]
              exact List.mem_cons.mpr (Or.inr h3)
            exact mem_of_drop (mem_of_dropWhile (mem_of_dropWhile h4))
          · rename_i t4 heq
            have h2 := ih h
            have h3 : x ∈ t4 := mem_of_dropWhile (mem_of_dropWhile h2)
            have h4 : x ∈ (((c :: rest).drop 6).dropWhile pyIsSpace).dropWhile pyIsDigit := by
              rw [heq]
              exact List.mem_cons.mpr (Or.inr h3)
            exact mem_of_drop (mem_of_dropWhile (mem_of_dropWhile h4))
          · rcases List.mem_cons.mp h with h1 | h1
            · exact List.mem_cons.mpr (Or.inl h1)
            · exact List.mem_cons.mpr (Or.inr (ih h1))
      · rcases List.mem_cons.mp h with h1 | h1
        · exact List.mem_cons.mpr (Or.inl h1)
        · exact List.mem_cons.mpr (Or.inr (ih h1))

lemma mem_subFigure {x : Char} {l : List Char} (h : x ∈ subFigure l) : x ∈ l :=
  mem_subFigureAux h

lemma mem_subListFigAux {x : Char} :
    ∀ {fuel : Nat} {l : List Char}, x ∈ subListFigAux fuel l → x ∈ l := by
  intro fuel
  induction fuel with
  | zero => intro l h; cases h
  | succ n ih =>
    intro l h
    cases l with
    | nil => cases h
    | cons c rest =>
      rw [subListFigAux] at h
      split at h
      · exact mem_of_drop (mem_of_dropWhile (ih h))
      · rcases List.mem_cons.mp h with h1 | h1
        · exact List.mem_cons.mpr (Or.inl h1)
        · exact List.mem_cons.mpr (Or.inr (ih h1))

lemma mem_subListFig {x : Char} {l : List Char} (h : x ∈ subListFig l) : x ∈ l :=
  mem_subListFigAux h

lemma firstDesc_some {α : Type} {f : Nat → Option α} :
    ∀ {n : Nat} {a : α}, firstDesc f n = some a → ∃ k, f k = some a := by
  intro n
  induction n with
  | zero => intro a h; cases h
  | succ m ih =>
    intro a h
    rw [firstDesc] at h
    split at h
    · rename_i b heq
      cases h
      exact ⟨m + 1, heq⟩
    · exact ih h

lemma dupAttempt_some {u : Char} {body grp rem : List Char}
    (h : dupAttempt u body = some (grp, rem)) :
    ∃ g k, grp = dupGroup u body g ∧
      rem = (body.drop g).drop (k + (dupGroup u body g).length) := by
  obtain ⟨g, hg⟩ := firstDesc_some h
  obtain ⟨k, hk⟩ := firstDesc_some hg
  split at hk
  · cases hk
    exact ⟨g, k, rfl, rfl⟩
  · cases hk

lemma mem_subDupHeadAux {x : Char} :
    ∀ {fuel : Nat} {l : List Char}, x ∈ subDupHeadAux fuel l → x ∈ l := by
  intro fuel
  induction fuel with
  | zero => intro l h; cases h
  | succ n ih =>
    intro l h
    cases l with
    | nil => cases h
    | cons c rest =>
      rw [subDupHeadAux] at h
      split at h
      · rename_i u body heq
        split at h
        · split at h
          · rename_i grp rem hattempt
            obtain ⟨g, k, hgrp, hrem⟩ := dupAttempt_some hattempt
            rcases List.mem_append.mp h with h1 | h1
            · rw [hgrp, dupGroup] at h1
              rcases List.mem_cons.mp h1 with h2 | h2
              · subst h2; rw [heq]; simp
              · rcases List.mem_cons.mp h2 with h3 | h3
                · subst h3; rw [heq]; simp
                · rcases List.mem_cons.mp h3 with h4 | h4
                  · subst h4; rw [heq]; simp
                  · have h5 : x ∈ body := mem_of_takeWhile (mem_of_take h4)
                    rw [heq]
                    simp [h5]
            · have h6 := ih h1
              rw [hrem] at h6
              have h5 : x ∈ body := mem_of_drop (mem_of_drop h6)
              rw [heq]
              simp [h5]
          · rcases List.mem_cons.mp h with h1 | h1
            · exact List.mem_cons.mpr (Or.inl h1)
            · exact List.mem_cons.mpr (Or.inr (ih h1))
        · rcases List.mem_cons.mp h with h1 | h1
          · exact List.mem_cons.mpr (Or.inl h1)
          · exact List.mem_cons.mpr (Or.inr (ih h1))
      · rcases List.mem_cons.mp h with h1 | h1
        · exact List.mem_cons.mpr (Or.inl h1)
        · exact List.mem_cons.mpr (Or.inr (ih h1))

lemma mem_subDupHead {x : Char} {l : List Char} (h : x ∈ subDupHead l) : x ∈ l :=
  mem_subDupHeadAux h

lemma mem_pyStrip {x : Char} {l : List Char} (h : x ∈ pyStrip l) : x ∈ l := by
  simp only [pyStrip, List.mem_reverse] at h
  exact mem_of_dropWhile (List.mem_reverse.mp (mem_of_dropWhile h))

/-- Every character of `cleanList l` either survives from the stage after
the escape-sequence replacements, or is an inserted space. -/
lemma mem_cleanList_tail {x : Char} {l : List Char} (h : x ∈ cleanList l) :
    x ∈ pyReplace (("\\").data) []
        (pyReplace (("\\t").data) ((" ").data)
          (pyReplace (("\\r").data) ((" ").data)
            (pyReplace (("\\n").data) ((" ").data)
              (pyReplace (("\x7d").data) []
                (pyReplace (("\x7b").data) []
                  (pyReplace (("\"\x7d").data) []
                    (pyReplace (("\",").data) []
                      (subContentKey
                        (subChapter (subPage (subWords (subFence l)))))))))))) ∨
      x = ' ' := by
  simp only [cleanList] at h
  have h1 := mem_pyStrip h
  have h2 := mem_subDupHead h1
  have h3 := mem_subListFig h2
  have h4 := mem_subFigure h3
  have h5 := mem_subTrailNum h4
  exact mem_subWs h5

/-- C7 counterexample: `clean_text` can leave stray quotes around a former
JSON key — a `"content"` key written with a space before the colon is not
matched by any stripping pass and survives verbatim, quotes included. -/
theorem C7_counterexample :
    clean_text ("\"content\" : \"x\"") = ("\"content\" : \"x\"") ∧
    ('"') ∈ (("\"content\" : \"x\"") : String).data := by
  refine ⟨rfl, ?_⟩
  decide

/-- C7 (amended): for every input, the character list of the output of
`clean_text` (that is, `cleanList` of the input's characters — `clean_text`
is `String.mk` composed with `cleanList` by definition) contains no brace
characters and no backslash at all (so in particular no literal
two-character `\n` or `\t` escape sequences); stray double quotes, however,
may remain. -/
theorem C7_cleaned_invariant (s : String) :
    ('{') ∉ cleanList s.data ∧
    ('}') ∉ cleanList s.data ∧
    ('\\') ∉ cleanList s.data := by
  refine ⟨?_, ?_, ?_⟩
  · intro h
    rcases mem_cleanList_tail h with h1 | h1
    · rcases mem_pyReplace h1 with h2 | h2
      · cases h2
      · rcases mem_pyReplace h2 with h3 | h3
        · exact absurd (List.mem_singleton.mp h3) (by decide)
        · rcases mem_pyReplace h3 with h4 | h4
          · exact absurd (List.mem_singleton.mp h4) (by decide)
          · rcases mem_pyReplace h4 with h5 | h5
            · exact absurd (List.mem_singleton.mp h5) (by decide)
            · rcases mem_pyReplace h5 with h6 | h6
              · cases h6
              · exact pyReplace_single_not_mem ('{') _ h6
    · exact absurd h1 (by decide)
  · intro h
    rcases mem_cleanList_tail h with h1 | h1
    · rcases mem_pyReplace h1 with h2 | h2
      · cases h2
      · rcases mem_pyReplace h2 with h3 | h3
        · exact absurd (List.mem_singleton.mp h3) (by decide)
        · rcases mem_pyReplace h3 with h4 | h4
          · exact absurd (List.mem_singleton.mp h4) (by decide)
          · rcases mem_pyReplace h4 with h5 | h5
            · exact absurd (List.mem_singleton.mp h5) (by decide)
            · exact pyReplace_single_not_mem ('}') _ h5
    · exact absurd h1 (by decide)
  · intro h
    rcases mem_cleanList_tail h with h1 | h1
    · exact pyReplace_single_not_mem ('\\') _ h1
    · exact absurd h1 (by decide)

lemma matchBodyEnd_iff {l : List Char} : matchBodyEnd l = true ↔ BodyLang l := by
  constructor
  · intro h
    cases l with
    | nil => simp [matchBodyEnd] at h
    | cons c rest =>
      cases rest with
      | nil => simp [matchBodyEnd] at h
      | cons d rest2 =>
        simp only [matchBodyEnd, Bool.and_eq_true, List.all_eq_true] at h
        obtain ⟨⟨h1, h2⟩, h3⟩ := h
        refine ⟨c, d :: rest2, rfl, h1, by simp, ?_⟩
        intro x hx
        rcases List.mem_cons.mp hx with h4 | h4
        · subst h4
          exact h2
        · exact h3 x h4
  · rintro ⟨c, rest, rfl, hc, hne, hall⟩
    cases rest with
    | nil => exact absurd rfl hne
    | cons d rest2 =>
      simp only [matchBodyEnd, Bool.and_eq_true, List.all_eq_true]
      exact ⟨⟨hc, hall d (List.mem_cons_self _ _)⟩,
        fun x hx => hall x (List.mem_cons_of_mem _ hx)⟩

lemma colonSkip_cons_ne {a : Char} {r : List Char} (h : ¬ a = ':') :
    colonSkip (a :: r) = a :: r := by
  rw [colonSkip.eq_def]
  split
  · rename_i heq
    injection heq with h1 _
    exact absurd h1 h
  · rfl

lemma isEmpty_false_of_ne {l : List Char} (h : l ≠ []) : l.isEmpty = false :=
  List.isEmpty_eq_false.mpr h

lemma matchChapterTail_iff {t : List Char} :
    matchChapterTail t = true ↔ ChapterTail t := by
  constructor
  · intro h
    rw [matchChapterTail] at h
    split at h
    · cases h
    · rename_i hcond
      rw [Bool.or_eq_true, not_or] at hcond
      obtain ⟨hw, hd⟩ := hcond
      rw [Bool.not_eq_true, List.isEmpty_eq_false] at hw hd
      have e1 : t.takeWhile pyIsSpace ++ t.dropWhile pyIsSpace = t :=
        List.takeWhile_append_dropWhile pyIsSpace t
      have e2 : (t.dropWhile pyIsSpace).takeWhile pyIsDigit ++
          (t.dropWhile pyIsSpace).dropWhile pyIsDigit = t.dropWhile pyIsSpace :=
        List.takeWhile_append_dropWhile pyIsDigit (t.dropWhile pyIsSpace)
      rcases ht3 : (t.dropWhile pyIsSpace).dropWhile pyIsDigit with _ | ⟨a, r⟩
      · rw [ht3] at h
        simp [colonSkip, matchBodyEnd] at h
      · by_cases ha : a = ':'
        · subst ha
          rw [ht3] at h
          have h' : matchBodyEnd (r.dropWhile pyIsSpace) = true := h
          have e3 : r.takeWhile pyIsSpace ++ r.dropWhile pyIsSpace = r :=
            List.takeWhile_append_dropWhile pyIsSpace r
          refine ⟨t.takeWhile pyIsSpace, (t.dropWhile pyIsSpace).takeWhile pyIsDigit,
            [(':')], r.takeWhile pyIsSpace, r.dropWhile pyIsSpace, ?_, hw,
            fun x hx => List.mem_takeWhile_imp hx, hd,
            fun x hx => List.mem_takeWhile_imp hx, Or.inr rfl,
            fun x hx => List.mem_takeWhile_imp hx,
            matchBodyEnd_iff.mp h'⟩
          simp only [List.append_assoc, List.singleton_append, List.cons_append,
            List.nil_append]
          conv_rhs => rw [e3, ← ht3, e2, e1]
        · rw [ht3, colonSkip_cons_ne ha] at h
          have e3 : (a :: r).takeWhile pyIsSpace ++ (a :: r).dropWhile pyIsSpace =
              a :: r :=
            List.takeWhile_append_dropWhile pyIsSpace (a :: r)
          refine ⟨t.takeWhile pyIsSpace, (t.dropWhile pyIsSpace).takeWhile pyIsDigit,
            [], (a :: r).takeWhile pyIsSpace, (a :: r).dropWhile pyIsSpace, ?_, hw,
            fun x hx => List.mem_takeWhile_imp hx, hd,
            fun x hx => List.mem_takeWhile_imp hx, Or.inl rfl,
            fun x hx => List.mem_takeWhile_imp hx,
            matchBodyEnd_iff.mp h⟩
          simp only [List.append_assoc, List.nil_append]
          conv_rhs => rw [e3, ← ht3, e2, e1]
  · rintro ⟨w, d, c2, w2, b, rfl, hw, hwsp, hd, hdig, hc2, hw2, hb⟩
    obtain ⟨cb, restb, rfl, hcb, hrne, hrall⟩ := hb
    rcases d with _ | ⟨dd, d'⟩
    · exact absurd rfl hd
    have hdighead : ∀ x : Char,
        ((dd :: d') ++ (c2 ++ (w2 ++ cb :: restb))).head? = some x →
        pyIsSpace x = false := by
      intro x hx
      simp only [List.cons_append, List.head?_cons, Option.some.injEq] at hx
      subst hx
      exact digit_not_space (hdig dd (List.mem_cons_self _ _))
    have step1 := takeWhile_append_of_head w ((dd :: d') ++ (c2 ++ (w2 ++ cb :: restb)))
      hwsp hdighead
    have hrest2head : ∀ x : Char, (c2 ++ (w2 ++ cb :: restb)).head? = some x →
        pyIsDigit x = false := by
      intro x hx
      rcases hc2 with rfl | rfl
      · rcases w2 with _ | ⟨s, w2'⟩
        · simp only [List.nil_append, List.head?_cons, Option.some.injEq] at hx
          subst hx
          exact upper_not_digit hcb
        · simp only [List.nil_append, List.cons_append, List.head?_cons,
            Option.some.injEq] at hx
          subst hx
          exact space_not_digit (hw2 s (List.mem_cons_self _ _))
      · simp only [List.cons_append, List.head?_cons, Option.some.injEq] at hx
        subst hx
        decide
    have step2 := takeWhile_append_of_head (dd :: d') (c2 ++ (w2 ++ cb :: restb))
      hdig hrest2head
    have step3 : colonSkip (c2 ++ (w2 ++ cb :: restb)) = w2 ++ cb :: restb := by
      rcases hc2 with rfl | rfl
      · rw [List.nil_append]
        rcases w2 with _ | ⟨s, w2'⟩
        · rw [List.nil_append]
          exact colonSkip_cons_ne (ne_of_pred hcb (by decide))
        · rw [List.cons_append]
          exact colonSkip_cons_ne
            (ne_of_pred (hw2 s (List.mem_cons_self _ _)) (by decide))
      · rfl
    have step4 := takeWhile_append_of_head w2 (cb :: restb) hw2
      (by
        intro x hx
        simp only [List.head?_cons, Option.some.injEq] at hx
        subst hx
        exact upper_not_space hcb)
    simp only [List.append_assoc]
    rw [matchChapterTail, step1.1, step1.2, step2.1, step2.2, step3, step4.2]
    rw [if_neg (by
      rw [Bool.or_eq_true, not_or]
      refine ⟨?_, ?_⟩
      · rw [Bool.not_eq_true, List.isEmpty_eq_false]
        exact hw
      · rw [Bool.not_eq_true, List.isEmpty_eq_false]
        intro he
        cases he)]
    exact matchBodyEnd_iff.mpr ⟨cb, restb, rfl, hcb, hrne, hrall⟩

lemma matchChapterEnd_iff {l : List Char} :
    matchChapterEnd l = true ↔ ∃ t, l = chapterWord ++ t ∧ ChapterTail t := by
  constructor
  · intro h
    rw [matchChapterEnd] at h
    split at h
    · rename_i hpre
      obtain ⟨t, ht⟩ := List.isPrefixOf_iff_prefix.mp hpre
      subst ht
      refine ⟨t, rfl, ?_⟩
      have hd7 : (chapterWord ++ t).drop 7 = t := by
        rw [show (7 : Nat) = chapterWord.length from rfl]
        exact List.drop_left _ _
      rw [hd7] at h
      exact matchChapterTail_iff.mp h
    · cases h
  · rintro ⟨t, rfl, hct⟩
    rw [matchChapterEnd,
      if_pos (List.isPrefixOf_iff_prefix.mpr (List.prefix_append _ _))]
    have hd7 : (chapterWord ++ t).drop 7 = t := by
      rw [show (7 : Nat) = chapterWord.length from rfl]
      exact List.drop_left _ _
    rw [hd7]
    exact matchChapterTail_iff.mpr hct

lemma matchHeadingCore_iff {l : List Char} :
    matchHeadingCore l = true ↔ HeadingCoreLang l := by
  constructor
  · intro h
    rw [matchHeadingCore, Bool.or_eq_true] at h
    rcases h with h | h
    · exact Or.inr (matchChapterEnd_iff.mp h)
    · exact Or.inl (matchBodyEnd_iff.mp h)
  · intro h
    rw [matchHeadingCore, Bool.or_eq_true]
    replace h : BodyLang l ∨ ∃ t, l = chapterWord ++ t ∧ ChapterTail t := h
    rcases h with h | h
    · exact Or.inr (matchBodyEnd_iff.mpr h)
    · exact Or.inl (matchChapterEnd_iff.mpr h)

/-- C6 counterexample: the claim classifies every string built only from
uppercase letters, digits, spaces and hyphens as a heading, but the
single-character fragment `A` — entirely uppercase — is rejected: the body
of the pattern requires an uppercase letter followed by at least one more
character. -/
theorem C6_counterexample :
    (("A") : String).data.all
        (fun c => pyIsUpper c || pyIsDigit c || c == ' ' || c == '-') = true ∧
    is_heading ("A") = false := by
  exact ⟨by decide, by decide⟩

/-- C6 (amended): the heading classifier returns true exactly on the
language of `^(?:CHAPTER\s+\d+:?\s*)?[A-Z][A-Z\s\d-]+$` under `re.match`:
an optional prefix `CHAPTER`, one or more whitespace characters, one or
more digits, an optional colon and any whitespace, followed by an
uppercase letter and AT LEAST ONE further character from
{uppercase, whitespace, digit, hyphen}; Python's `$` also admits one final
newline.  In particular one-character fragments are never headings. -/
theorem C6_heading_iff (s : String) :
    is_heading s = true ↔ HeadingLang s.data := by
  rw [is_heading, matchDollar, Bool.or_eq_true]
  constructor
  · rintro (h | h)
    · exact Or.inl (matchHeadingCore_iff.mp h)
    · split at h
      · rename_i hlast
        have hne : s.data ≠ [] := by
          intro he
          rw [he] at hlast
          cases hlast
        have hgl : s.data.getLast hne = '\n' := by
          have h2 := List.getLast?_eq_getLast s.data hne
          rw [h2] at hlast
          exact Option.some.inj hlast
        refine Or.inr ⟨s.data.dropLast, ?_, matchHeadingCore_iff.mp h⟩
        conv_lhs => rw [← List.dropLast_concat_getLast hne]
        rw [hgl]
      · cases h
  · intro h
    replace h : HeadingCoreLang s.data ∨
        ∃ t, s.data = t ++ [('\n')] ∧ HeadingCoreLang t := h
    rcases h with h | ⟨t, ht, hcore⟩
    · exact Or.inl (matchHeadingCore_iff.mpr h)
    · right
      rw [ht, if_pos (by rw [List.getLast?_concat]), List.dropLast_concat]
      exact matchHeadingCore_iff.mpr hcore

/-- C6 witness: both directions of the characterization at concrete
fragments — `CHAPTER 12: RESULTS` is in the language and classified as a
heading. -/
theorem C6_witness :
    is_heading ("CHAPTER 12: RESULTS") = true ∧
    HeadingLang (("CHAPTER 12: RESULTS") : String).data :=
  ⟨by decide, (C6_heading_iff ("CHAPTER 12: RESULTS")).mp (by decide)⟩

end FlashReader
